import Mathlib

/-!
# Verification of the `tsv` SQL time-filter validator

A shallow embedding of the Go package `tsv` (a tolerant SQL validator for
AWS Timestream queries).  The Go source operates on byte strings; the
embedding models the input as a list of characters, which coincides with the
byte-level behaviour on ASCII input.  Go `int` nesting depths are modelled as
`Int`; array indices are `Nat`, with Go's `-1` sentinel rendered as `Option`.
All definitions are translated from the source file `tsv.go` and keep its
names.
-/

namespace Tsv

/-- Kind of a lexed token (Go `tokenKind`). -/
inductive TokenKind where
  | tkIdent
  | tkKeyword
  | tkString
  | tkNumber
  | tkSymbol
deriving DecidableEq, Repr

/-- A lexed token (Go `token`): normalized value, kind, and parenthesis
nesting depth at emission. -/
structure Token where
  val : List Char
  kind : TokenKind
  depth : Int
deriving DecidableEq, Repr

/-- The fixed SQL keyword set (Go `keywords` map). -/
def keywordsList : List (List Char) :=
  ["select".data, "from".data, "where".data, "group".data, "by".data,
   "order".data, "having".data, "union".data, "intersect".data, "except".data,
   "join".data, "left".data, "right".data, "full".data, "outer".data,
   "inner".data, "cross".data, "on".data, "as".data, "with".data,
   "lateral".data, "between".data, "and".data, "or".data, "not".data,
   "in".data, "exists".data]

/-- Go `unicode.IsSpace` restricted to single-byte runes: the ASCII
whitespace characters plus NEL (U+0085) and NBSP (U+00A0). -/
def isSpaceChar (c : Char) : Bool :=
  c = ' ' || c = '\t' || c = '\n' || c = '\x0b' || c = '\x0c' || c = '\r' ||
  c = '\u0085' || c = ' '

/-- Go `isIdentStart`: letter, underscore, or the macro-prefix `$`. -/
def isIdentStart (c : Char) : Bool :=
  c.isAlpha || c = '_' || c = '$'

/-- Go `isIdentPart`: letter, digit, underscore, dot, or `$`. -/
def isIdentPart (c : Char) : Bool :=
  c.isAlpha || c.isDigit || c = '_' || c = '.' || c = '$'

/-- Go `isNumStart`. -/
def isNumStart (c : Char) : Bool := c.isDigit

/-- Go `isNum`. -/
def isNum (c : Char) : Bool := c.isDigit

/-- Go `strings.ToLower` (ASCII case folding, applied character-wise). -/
def toLowerL (l : List Char) : List Char := l.map Char.toLower

/-- Worker for Go `stripComments`: the two state flags are `inLine`
(inside a `-- ...` line comment) and `inBlock` (inside a block comment). -/
def scAux (inLine inBlock : Bool) : List Char → List Char
  | [] => []
  | [c] =>
    if inLine then (if c = '\n' then [c] else [])
    else if inBlock then []
    else [c]
  | c :: d :: rest =>
    if inLine then
      if c = '\n' then c :: scAux false inBlock (d :: rest)
      else scAux true inBlock (d :: rest)
    else if inBlock then
      if c = '*' ∧ d = '/' then scAux inLine false rest
      else scAux inLine true (d :: rest)
    else
      if c = '-' ∧ d = '-' then scAux true inBlock rest
      else if c = '/' ∧ d = '*' then scAux inLine true rest
      else c :: scAux inLine inBlock (d :: rest)

/-- Go `stripComments`: removes `-- ...` line comments (newline kept) and
`/* ... */` block comments before lexing. -/
def stripComments (s : List Char) : List Char := scAux false false s

/-- Worker for the `readString` closure inside Go `lex`: given the characters
after the opening quote, returns the consumed characters (up to and including
the closing quote, honouring doubled-quote escapes) and the remainder.  On an
unterminated quote it consumes everything. -/
def readStringAux (q : Char) : List Char → (List Char × List Char)
  | [] => ([], [])
  | [c] => ([c], [])
  | c :: c2 :: rest =>
    if c = q then
      if c2 = q then
        let p := readStringAux q rest
        (c :: c2 :: p.1, p.2)
      else ([c], c2 :: rest)
    else
      let p := readStringAux q (c2 :: rest)
      (c :: p.1, p.2)

/-- Worker for Go `lex`: one left-to-right pass with a running depth counter.
Handles serialized escape sequences, whitespace, parentheses (with depth
clamped at 0), quoted strings / quoted identifiers, numbers,
identifiers/keywords, two-character comparison operators, and single-character
symbols, in exactly the order of the Go source.  The structural `fuel`
argument only bounds the recursion; every step consumes at least one
character, so any fuel of at least the input's length yields the Go
behaviour (see `lexAuxF_fuel_irrel`). -/
def lexAuxF : Nat → Int → List Char → List Token
  | 0, _, _ => []
  | fuel + 1, depth, s =>
    match s with
    | [] => []
    | c :: rest =>
      if c = '\\' then
        match rest with
        | d :: rest' =>
          if d = 'n' ∨ d = 'r' ∨ d = 't' then lexAuxF fuel depth rest'
          else if d = '"' ∨ d = '\'' ∨ d = '\\' then lexAuxF fuel depth rest
          else ⟨['\\'], .tkSymbol, depth⟩ :: lexAuxF fuel depth rest
        | [] => ⟨['\\'], .tkSymbol, depth⟩ :: lexAuxF fuel depth rest
      else if isSpaceChar c then lexAuxF fuel depth rest
      else if c = '(' then
        ⟨['('], .tkSymbol, depth⟩ :: lexAuxF fuel (depth + 1) rest
      else if c = ')' then
        ⟨[')'], .tkSymbol, if depth - 1 < 0 then 0 else depth - 1⟩ ::
          lexAuxF fuel (if depth - 1 < 0 then 0 else depth - 1) rest
      else if c = '\'' ∨ c = '"' then
        (if c = '"' then
          ⟨toLowerL (c :: (readStringAux c rest).1), .tkIdent, depth⟩
         else ⟨c :: (readStringAux c rest).1, .tkString, depth⟩) ::
          lexAuxF fuel depth (readStringAux c rest).2
      else if isNumStart c then
        ⟨c :: rest.takeWhile (fun ch => isNum ch || ch = '.'), .tkNumber, depth⟩ ::
          lexAuxF fuel depth (rest.dropWhile (fun ch => isNum ch || ch = '.'))
      else if isIdentStart c then
        (if keywordsList.contains (toLowerL (c :: rest.takeWhile isIdentPart)) then
          ⟨toLowerL (c :: rest.takeWhile isIdentPart), .tkKeyword, depth⟩
         else ⟨toLowerL (c :: rest.takeWhile isIdentPart), .tkIdent, depth⟩) ::
          lexAuxF fuel depth (rest.dropWhile isIdentPart)
      else
        match rest with
        | n :: rest' =>
          if (c = '>' ∨ c = '<' ∨ c = '!') ∧
              ((c = '>' ∧ n = '=') ∨ (c = '<' ∧ (n = '=' ∨ n = '>')) ∨
               (c = '!' ∧ n = '=')) then
            ⟨toLowerL [c, n], .tkSymbol, depth⟩ :: lexAuxF fuel depth rest'
          else ⟨toLowerL [c], .tkSymbol, depth⟩ :: lexAuxF fuel depth rest
        | [] => ⟨toLowerL [c], .tkSymbol, depth⟩ :: lexAuxF fuel depth rest

/-- Go `lex`'s loop entered with the exact fuel needed. -/
def lexAux (depth : Int) (s : List Char) : List Token :=
  lexAuxF s.length depth s

/-- Go `lex`. -/
def lex (s : List Char) : List Token := lexAux 0 s

/-! ## Token-stream scanning helpers -/

/-- Safe indexed access with a predicate: true when index `i` is in range and
the token there satisfies `p`.  Mirrors Go's direct `toks[i]` accesses, whose
call sites always keep the index in range. -/
def tokP (toks : List Token) (i : Nat) (p : Token → Bool) : Bool :=
  match toks[i]? with
  | some t => p t
  | none => false

/-- The value of the token at index `i` (empty when out of range). -/
def tokVal (toks : List Token) (i : Nat) : List Char :=
  ((toks[i]?).map Token.val).getD []

/-- Worker for `scanIdx`, structurally recursive on the remaining number of
indices to inspect. -/
def scanIdxF (abort hit : Nat → Bool) : Nat → Nat → Option Nat
  | 0, _ => none
  | fuel + 1, i =>
    if abort i then none
    else if hit i then some i
    else scanIdxF abort hit fuel (i + 1)

/-- Generic left-to-right index scan shared by the Go search loops: starting
at `i`, with indices below `bound`, return the first index where `hit` holds,
`none` as soon as `abort` holds or the bound is reached. -/
def scanIdx (bound : Nat) (abort hit : Nat → Bool) (i : Nat) : Option Nat :=
  scanIdxF abort hit (bound - i) i

/-- Go `findNextKeywordAtDepth`: first keyword `word` at exactly `depth` from
`start` on, aborting as soon as a token at a smaller depth is met. -/
def findNextKeywordAtDepth (toks : List Token) (start : Nat) (depth : Int)
    (word : List Char) : Option Nat :=
  scanIdx toks.length
    (fun i => tokP toks i (fun t => t.depth < depth))
    (fun i => tokP toks i
      (fun t => t.depth = depth ∧ t.kind = .tkKeyword ∧ t.val = word))
    start

/-- Go `findNextKeywordBetweenAtDepth`: first keyword `word` at exactly
`depth` in `[start, stop)`, with no abort on depth drops. -/
def findNextKeywordBetweenAtDepth (toks : List Token) (start stop : Nat)
    (depth : Int) (word : List Char) : Option Nat :=
  scanIdx (min stop toks.length)
    (fun _ => false)
    (fun i => tokP toks i
      (fun t => t.depth = depth ∧ t.kind = .tkKeyword ∧ t.val = word))
    start

/-- The clause-terminator keywords of Go `findNextTerminatorAtDepth`. -/
def terminatorKws : List (List Char) :=
  ["group".data, "order".data, "having".data, "union".data,
   "intersect".data, "except".data]

/-- Go `findNextTerminatorAtDepth`: index of the next clause terminator at
`depth` (or of the first token whose depth drops below `depth`), else the
length of the token list. -/
def findNextTerminatorAtDepth (toks : List Token) (start : Nat)
    (depth : Int) : Nat :=
  match scanIdx toks.length
      (fun _ => false)
      (fun i => tokP toks i
        (fun t => t.depth < depth ∨
          (t.depth = depth ∧ t.kind = .tkKeyword ∧
            terminatorKws.contains t.val)))
      start with
  | some i => i
  | none => toks.length

/-- Go `isCompareOp`. -/
def isCompareOp (s : List Char) : Bool :=
  s = "=".data ∨ s = "<".data ∨ s = ">".data ∨ s = "<=".data ∨
  s = ">=".data ∨ s = "<>".data ∨ s = "!=".data

/-- Go `stripQuotes`: remove a matching pair of surrounding double or single
quotes, then lowercase. -/
def stripQuotes (s : List Char) : List Char :=
  if 2 ≤ s.length ∧
      ((s.head? = some '"' ∧ s.getLast? = some '"') ∨
       (s.head? = some '\'' ∧ s.getLast? = some '\'')) then
    toLowerL ((s.drop 1).dropLast)
  else toLowerL s

/-- The suffix after the last `.` (Go `cur[strings.LastIndex(cur, ".")+1:]`;
the whole string when no dot occurs). -/
def afterLastDot (s : List Char) : List Char :=
  (s.reverse.takeWhile (fun c => !(c == '.'))).reverse

/-- Go `inStrSlice`. -/
def inStrSlice (s : List Char) (arr : List (List Char)) : Bool :=
  arr.any (fun v => s = v)

/-- Does `needle` occur at the start of `hay`? (worker for Go
`strings.Contains`). -/
def startsWithSeq : List Char → List Char → Bool
  | [], _ => true
  | _ :: _, [] => false
  | a :: as, b :: bs => a = b && startsWithSeq as bs

/-- Go `strings.Contains`: does `needle` occur as a contiguous subsequence of
`hay`? -/
def containsSeq (needle : List Char) : List Char → Bool
  | [] => needle.isEmpty
  | c :: t => startsWithSeq needle (c :: t) || containsSeq needle t

/-- Go `isTimeIdentifierAt`: do the tokens at position `i` denote a time
column?  Covers `time`, `measure_time`, dotted identifiers such as `s1.time`,
and the `Identifier '.' Identifier` pattern such as `"s1"."time"`.  (The Go
function also returns the matched column name; every caller discards it, so
the embedding returns only the Boolean.) -/
def isTimeIdentifierAt (toks : List Token) (i : Nat) (depth : Int)
    (timeCols : List (List Char)) : Bool :=
  match toks[i]? with
  | none => false
  | some t =>
    if t.depth = depth ∧ t.kind = .tkIdent then
      let cur := stripQuotes t.val
      (cur.contains '.' && inStrSlice (afterLastDot cur) timeCols) ||
      (decide (i + 2 < toks.length) &&
        tokP toks (i+1)
          (fun u => u.depth = depth ∧ u.kind = .tkSymbol ∧ u.val = ".".data) &&
        tokP toks (i+2) (fun u => u.depth = depth ∧ u.kind = .tkIdent) &&
        inStrSlice (stripQuotes (tokVal toks (i+2))) timeCols) ||
      inStrSlice cur timeCols
    else false

/-- The backward scan of Go `whereHasTimePredicate`: from `k` downwards while
`start ≤ k` and `k ≥ i - 6`, skipping tokens at other depths and `NOT`
keywords, looking for a time identifier. -/
def lookback (toks : List Token) (start : Nat) (depth : Int)
    (timeCols : List (List Char)) (i : Nat) : Nat → Bool
  | 0 =>
    if start ≤ 0 ∧ i ≤ 0 + 6 then
      if !(tokP toks 0 (fun t => t.depth = depth)) ||
          tokP toks 0 (fun t => t.kind = .tkKeyword ∧ t.val = "not".data) then
        false
      else if isTimeIdentifierAt toks 0 depth timeCols then true
      else false
    else false
  | k + 1 =>
    if start ≤ k + 1 ∧ i ≤ (k + 1) + 6 then
      if !(tokP toks (k+1) (fun t => t.depth = depth)) ||
          tokP toks (k+1) (fun t => t.kind = .tkKeyword ∧ t.val = "not".data) then
        lookback toks start depth timeCols i k
      else if isTimeIdentifierAt toks (k+1) depth timeCols then true
      else lookback toks start depth timeCols i k
    else false

/-- The forward look in Go `whereHasTimePredicate` at a time identifier `i`:
skip to the next token at `depth` (bounded by `stop`) and check for
`NOT BETWEEN`, `BETWEEN`, or a comparison operator. -/
def condTimeThenOp (toks : List Token) (stop : Nat) (depth : Int)
    (timeCols : List (List Char)) (i : Nat) : Bool :=
  isTimeIdentifierAt toks i depth timeCols &&
  (match scanIdx stop (fun _ => false)
      (fun j => tokP toks j (fun t => t.depth = depth)) (i + 1) with
   | none => false
   | some j =>
     (tokP toks j (fun t => t.kind = .tkKeyword ∧ t.val = "not".data) &&
       (match scanIdx stop (fun _ => false)
           (fun k => tokP toks k (fun t => t.depth = depth)) (j + 1) with
        | none => false
        | some k =>
          tokP toks k (fun t => t.kind = .tkKeyword ∧ t.val = "between".data))) ||
     tokP toks j (fun t => t.kind = .tkKeyword ∧ t.val = "between".data) ||
     tokP toks j (fun t => t.kind = .tkSymbol ∧ isCompareOp t.val))

/-- The `BETWEEN`-first case of Go `whereHasTimePredicate`: a `BETWEEN`
keyword at `i` with a time identifier in the bounded look-back window. -/
def condBetweenLookback (toks : List Token) (start : Nat) (depth : Int)
    (timeCols : List (List Char)) (i : Nat) : Bool :=
  tokP toks i (fun t => t.kind = .tkKeyword ∧ t.val = "between".data) &&
  (if i = 0 then false else lookback toks start depth timeCols i (i - 1))

/-- Go `whereHasTimePredicate`: the WHERE body `[start, stop)` at `depth`
passes if it contains the `$__timefilter` macro, a time identifier followed
by `BETWEEN` / `NOT BETWEEN` / a comparison operator, or a `BETWEEN` with a
time identifier in the look-back window. -/
def whereHasTimePredicate (toks : List Token) (start stop : Nat)
    (depth : Int) (timeCols : List (List Char)) : Bool :=
  (scanIdx (min stop toks.length) (fun _ => false)
    (fun i => tokP toks i
      (fun t => t.depth = depth ∧ t.kind = .tkIdent ∧
        containsSeq "$__timefilter".data t.val = true))
    start).isSome ||
  (scanIdx (min stop toks.length) (fun _ => false)
    (fun i => tokP toks i (fun t => t.depth = depth) &&
      (condTimeThenOp toks stop depth timeCols i ||
       condBetweenLookback toks start depth timeCols i))
    start).isSome

/-- The skip loop of Go `whereStartsWithConjunction`: the index of the first
meaningful token of the WHERE body, skipping tokens at other depths, the
serialized escape pair `\` `n`, and stray symbols. -/
def whereSkipF (toks : List Token) (stop : Nat) (depth : Int) :
    Nat → Nat → Option Nat
  | 0, _ => none
  | fuel + 1, i =>
    if i < stop ∧ i < toks.length then
      if !(tokP toks i (fun t => t.depth = depth)) then
        whereSkipF toks stop depth fuel (i + 1)
      else if tokP toks i (fun t => t.kind = .tkSymbol ∧ t.val = ['\\']) then
        if i + 1 < stop ∧ tokP toks (i+1)
            (fun t => t.depth = depth ∧ t.kind = .tkIdent ∧ t.val = ['n']) then
          whereSkipF toks stop depth fuel (i + 2)
        else whereSkipF toks stop depth fuel (i + 1)
      else if tokP toks i (fun t => t.kind = .tkSymbol) then
        whereSkipF toks stop depth fuel (i + 1)
      else some i
    else none

/-- The skip loop of Go `whereStartsWithConjunction`, entered with enough
fuel: the loop exits before `i` reaches `stop`, so `stop` steps suffice. -/
def whereSkip (toks : List Token) (stop : Nat) (depth : Int) (i : Nat) :
    Option Nat :=
  whereSkipF toks stop depth (stop - i) i

/-- Go `whereStartsWithConjunction`: true if the WHERE body is empty or its
first meaningful token is the keyword `AND` or `OR`. -/
def whereStartsWithConjunction (toks : List Token) (start stop : Nat)
    (depth : Int) : Bool :=
  match whereSkip toks stop depth start with
  | none => true
  | some i =>
    tokP toks i
      (fun t => t.kind = .tkKeyword ∧ (t.val = "and".data ∨ t.val = "or".data))

/-- Go `fromStartsWithBaseTable`: does the FROM source `[start, stop)` at
`depth` look like a base table (`db.table`, `"db"."table"`, or a dotted macro
identifier), rather than a subquery, function call, or bare CTE alias? -/
def fromStartsWithBaseTable (toks : List Token) (start stop : Nat)
    (depth : Int) : Bool :=
  match scanIdx (min stop toks.length)
      (fun i => tokP toks i
        (fun t => t.depth = depth ∧
          ((t.kind = .tkSymbol ∧ t.val = "(".data) ∨
           (t.kind = .tkKeyword ∧ t.val = "select".data))))
      (fun i => tokP toks i
        (fun t => t.depth = depth ∧ t.kind ≠ .tkSymbol ∧ t.kind ≠ .tkKeyword))
      start with
  | none => false
  | some i =>
    if tokP toks i (fun t => t.kind = .tkIdent) then
      if (stripQuotes (tokVal toks i)).contains '.' then
        match scanIdx stop (fun _ => false)
            (fun j => tokP toks j (fun t => t.depth = depth)) (i + 1) with
        | some j =>
          !(tokP toks j (fun t => t.kind = .tkSymbol ∧ t.val = "(".data))
        | none => true
      else if decide (i + 2 < stop) &&
          tokP toks (i+1)
            (fun t => t.depth = depth ∧ t.kind = .tkSymbol ∧ t.val = ".".data) &&
          tokP toks (i+2)
            (fun t => t.depth = depth ∧ t.kind = .tkIdent) then
        true
      else false
    else false

/-! ## The validator -/

/-- Go `Issue`. -/
structure Issue where
  snippet : List Char
  reason : String
  atDepth : Int
deriving DecidableEq, Repr

/-- Go `Options`. -/
structure Options where
  timeColumns : List (List Char)

/-- Go `snippetAroundTokens`: a bounded excerpt of the offending region,
joining token values with spaces up to a
220-byte budget. -/
def snippetGo (toks : List Token) (stop' : Nat) :
    Nat → Nat → List Char → List Char
  | 0, _, acc => acc
  | fuel + 1, i, acc =>
    if i < stop' then
      if 220 < (acc.map Char.utf8Size).sum then acc ++ " ...".data
      else
        let acc' := acc ++ tokVal toks i
        snippetGo toks stop' fuel (i + 1)
          (if i + 1 < stop' then acc' ++ [' '] else acc')
    else acc

/-- Go `snippetAroundTokens` (continued): join the token values of
`[start, stop)` with single spaces under a 220-byte budget, then trim
surrounding whitespace. -/
def snippetAroundTokens (toks : List Token) (start stop : Nat) : List Char :=
  let stop' := min stop toks.length
  let out := snippetGo toks stop' (stop' - start) start []
  (out.dropWhile isSpaceChar).reverse.dropWhile isSpaceChar |>.reverse

/-- The default accepted time columns of Go `Validate`. -/
def defaultTimeCols : List (List Char) := ["time".data, "measure_time".data]

/-- The reason string for a base-table SELECT with no WHERE clause. -/
def reasonMissingWhere : String := "missing WHERE clause with time filter"

/-- The reason string for a WHERE body starting with a dangling conjunction. -/
def reasonConjunction : String :=
  "WHERE clause starts with AND/OR; no predicate before it"

/-- The reason string for a WHERE body with no recognized time predicate. -/
def reasonNoTimePredicate : String :=
  "WHERE clause lacks a time predicate on allowed time columns"

/-- The body of the per-SELECT loop in Go `Validate`: evaluate the SELECT at
token index `selIdx` and depth `d`, returning its issue, if any.  Each
iteration of the Go loop appends at most one issue and carries no other
state, so the loop is the `filterMap` of this function. -/
def evalSelect (toks : List Token) (timeCols : List (List Char))
    (selIdx : Nat) (d : Int) : Option Issue :=
  match findNextKeywordAtDepth toks (selIdx + 1) d "from".data with
  | none => none
  | some fromIdx =>
    let stopIdx := findNextTerminatorAtDepth toks (fromIdx + 1) d
    if fromStartsWithBaseTable toks (fromIdx + 1) stopIdx d then
      match findNextKeywordBetweenAtDepth toks (fromIdx + 1) stopIdx d
          "where".data with
      | none =>
        some ⟨snippetAroundTokens toks selIdx stopIdx, reasonMissingWhere, d⟩
      | some whereIdx =>
        let whereStop := findNextTerminatorAtDepth toks (whereIdx + 1) d
        if whereStartsWithConjunction toks (whereIdx + 1) whereStop d then
          some ⟨snippetAroundTokens toks selIdx whereStop, reasonConjunction, d⟩
        else if whereHasTimePredicate toks (whereIdx + 1) whereStop d
            timeCols then
          none
        else
          some ⟨snippetAroundTokens toks selIdx whereStop,
            reasonNoTimePredicate, d⟩
    else none

/-- The SELECT-discovery scan of Go `Validate`: every index holding the
keyword `select`, paired with its depth, in source order. -/
def selectSites (toks : List Token) : List (Nat × Int) :=
  (List.range toks.length).filterMap fun i =>
    match toks[i]? with
    | some t =>
      if t.kind = .tkKeyword ∧ t.val = "select".data then some (i, t.depth)
      else none
    | none => none

/-- The time-column preamble of Go `Validate`: the caller-supplied columns,
lowercased, when present and non-empty, else the defaults. -/
def effectiveTimeCols (opts : Option Options) : List (List Char) :=
  match opts with
  | some o =>
    if 0 < o.timeColumns.length then o.timeColumns.map toLowerL
    else defaultTimeCols
  | none => defaultTimeCols

/-- Go `Validate`: strip comments, lex, discover every SELECT, and evaluate
each independently; passes iff no issue was raised. -/
def Validate (sql : String) (opts : Option Options) : Bool × List Issue :=
  let timeCols := effectiveTimeCols opts
  let toks := lex (stripComments sql.data)
  let issues := (selectSites toks).filterMap fun s =>
    evalSelect toks timeCols s.1 s.2
  (issues.length == 0, issues)

/-! ## Side conditions used to state comment removal (C7) -/

/-- No `--` or `/*` comment marker starts inside `l` (adjacent-pair check). -/
def noMarkerPair : List Char → Bool
  | [] => true
  | [_] => true
  | x :: y :: rest =>
    if (x = '-' ∧ y = '-') ∨ (x = '/' ∧ y = '*') then false
    else noMarkerPair (y :: rest)

/-- Text `l` does not end in `-` or `/` (so appending a comment marker after
`l` cannot fuse with the last character of `l`). -/
def lastSafe (l : List Char) : Bool :=
  match l.getLast? with
  | some x => !(x == '-') && !(x == '/')
  | none => true

/-- Comment-marker-free text: scanned in normal mode, `scAux` copies it
verbatim and a comment marker appended after it starts exactly at the
boundary. -/
def markFree (l : List Char) : Bool := noMarkerPair l && lastSafe l

/-- No `*/` block-comment terminator occurs inside `l`. -/
def noBlockEnd : List Char → Bool
  | [] => true
  | [_] => true
  | x :: y :: rest =>
    if x = '*' ∧ y = '/' then false else noBlockEnd (y :: rest)

/-! ## Spec-side predicates for C1 and C2 -/

/-- Spec-side: `j` is the next token at depth `d` after `i`, within the span
ending at `stop` — every index strictly between `i` and `j` sits at another
depth. -/
def NextAtDepth (toks : List Token) (stop : Nat) (d : Int) (i j : Nat) :
    Prop :=
  i < j ∧ j < stop ∧ tokP toks j (fun t => t.depth = d) = true ∧
    ∀ m, i < m → m < j → tokP toks m (fun t => t.depth = d) = false

/-- Spec-side: `i` is the first meaningful token of the FROM source
`[start, stop)` at depth `d`: it sits at depth `d` and is neither a symbol
nor a keyword, and every earlier index of the span is skippable — at another
depth, a stray symbol other than `(`, or a keyword other than SELECT. -/
def FromFirstMeaningful (toks : List Token) (start stop : Nat) (d : Int)
    (i : Nat) : Prop :=
  start ≤ i ∧ i < stop ∧
  tokP toks i
    (fun t => t.depth = d ∧ t.kind ≠ .tkSymbol ∧ t.kind ≠ .tkKeyword) =
    true ∧
  ∀ m, start ≤ m → m < i →
    tokP toks m (fun t =>
      t.depth ≠ d ∨ (t.kind = .tkSymbol ∧ t.val ≠ "(".data) ∨
      (t.kind = .tkKeyword ∧ t.val ≠ "select".data)) = true

/-- Spec-side classification of a FROM source as a base table (C2): the
first meaningful token is an Identifier, and either its quote-stripped value
contains a dot and the next same-depth token within the span is not `(`, or
it is followed at depth `d` by the symbol `.` and another Identifier. -/
def FromBaseTableSpec (toks : List Token) (start stop : Nat) (d : Int) :
    Prop :=
  ∃ i, FromFirstMeaningful toks start stop d i ∧
    tokP toks i (fun t => t.kind = .tkIdent) = true ∧
    (((stripQuotes (tokVal toks i)).contains '.' = true ∧
      ∀ j, NextAtDepth toks stop d i j →
        tokP toks j
          (fun t => t.kind = .tkSymbol ∧ t.val = "(".data) = false) ∨
     (i + 2 < stop ∧
      tokP toks (i+1)
        (fun t => t.depth = d ∧ t.kind = .tkSymbol ∧ t.val = ".".data) =
        true ∧
      tokP toks (i+2)
        (fun t => t.depth = d ∧ t.kind = .tkIdent) = true))

/-- Spec-side clause (a) of C1: some Identifier token at depth `d` within
the span contains the substring `$__timefilter`. -/
def TimeFilterMacroSpec (toks : List Token) (start stop : Nat) (d : Int) :
    Prop :=
  ∃ i, start ≤ i ∧ i < stop ∧
    tokP toks i (fun t => t.depth = d ∧ t.kind = .tkIdent ∧
      containsSeq "$__timefilter".data t.val = true) = true

/-- Spec-side clause (b) of C1: a recognized time identifier at depth `d` is
immediately followed — skipping tokens at other depths — by `BETWEEN`, by
`NOT` then `BETWEEN`, or by a comparison symbol. -/
def TimeIdentThenOpSpec (toks : List Token) (start stop : Nat) (d : Int)
    (timeCols : List (List Char)) : Prop :=
  ∃ i, start ≤ i ∧ i < stop ∧
    isTimeIdentifierAt toks i d timeCols = true ∧
    ∃ j, NextAtDepth toks stop d i j ∧
      (tokP toks j
          (fun t => t.kind = .tkKeyword ∧ t.val = "between".data) = true ∨
       (tokP toks j
          (fun t => t.kind = .tkKeyword ∧ t.val = "not".data) = true ∧
        ∃ k, NextAtDepth toks stop d j k ∧
          tokP toks k
            (fun t => t.kind = .tkKeyword ∧ t.val = "between".data) = true) ∨
       tokP toks j
         (fun t => t.kind = .tkSymbol ∧ isCompareOp t.val = true) = true)

/-- Spec-side clause (c) of C1: a `BETWEEN` keyword at depth `d` has a
recognized time identifier among at most the 6 token positions preceding it
(bounded below by the start of the span). -/
def BetweenLookbackSpec (toks : List Token) (start stop : Nat) (d : Int)
    (timeCols : List (List Char)) : Prop :=
  ∃ i k, start ≤ i ∧ i < stop ∧
    tokP toks i
      (fun t => t.depth = d ∧ t.kind = .tkKeyword ∧
        t.val = "between".data) = true ∧
    start ≤ k ∧ k < i ∧ i ≤ k + 6 ∧
    isTimeIdentifierAt toks k d timeCols = true

/-- The full spec-side time-predicate condition of C1. -/
def TimePredicateSpec (toks : List Token) (start stop : Nat) (d : Int)
    (timeCols : List (List Char)) : Prop :=
  TimeFilterMacroSpec toks start stop d ∨
  TimeIdentThenOpSpec toks start stop d timeCols ∨
  BetweenLookbackSpec toks start stop d timeCols

/-! ## Characterizations of the index scans -/

theorem scanIdxF_some_iff (a h : Nat → Bool) :
    ∀ (fuel i0 j : Nat), (scanIdxF a h fuel i0 = some j ↔
      (i0 ≤ j ∧ j < i0 + fuel ∧ a j = false ∧ h j = true ∧
        ∀ m, i0 ≤ m → m < j → a m = false ∧ h m = false)) := by
  intro fuel
  induction fuel with
  | zero =>
    intro i0 j
    simp only [scanIdxF]
    constructor
    · intro hc; cases hc
    · rintro ⟨h1, h2, -⟩; omega
  | succ f ih =>
    intro i0 j
    rw [scanIdxF]
    by_cases ha : a i0 = true
    · simp only [ha, if_pos rfl]
      constructor
      · intro hc; cases hc
      · rintro ⟨h1, h2, h3, h4, h5⟩
        rcases Nat.lt_or_ge i0 j with hij | hij
        · have := (h5 i0 le_rfl hij).1
          rw [ha] at this; cases this
        · have hj : i0 = j := Nat.le_antisymm h1 hij
          subst hj; rw [ha] at h3; cases h3
    · have ha' : a i0 = false := by
        cases hv : a i0 with
        | true => exact absurd hv ha
        | false => rfl
      rw [if_neg (by rw [ha'] ; exact Bool.false_ne_true)]
      by_cases hh : h i0 = true
      · rw [if_pos hh]
        constructor
        · intro hc
          injection hc with hc; subst hc
          exact ⟨Nat.le_refl _, by omega, ha', hh, fun m hm1 hm2 => by omega⟩
        · rintro ⟨h1, h2, h3, h4, h5⟩
          rcases Nat.lt_or_ge i0 j with hij | hij
          · have := (h5 i0 (Nat.le_refl _) hij).2
            rw [hh] at this; cases this
          · have : i0 = j := Nat.le_antisymm h1 hij
            rw [this]
      · have hh' : h i0 = false := by
          cases hv : h i0 with
          | true => exact absurd hv hh
          | false => rfl
        rw [if_neg (by rw [hh'] ; exact Bool.false_ne_true)]
        rw [ih (i0 + 1) j]
        constructor
        · rintro ⟨h1, h2, h3, h4, h5⟩
          refine ⟨by omega, by omega, h3, h4, fun m hm1 hm2 => ?_⟩
          rcases Nat.eq_or_lt_of_le hm1 with hm | hm
          · rw [← hm]; exact ⟨ha', hh'⟩
          · exact h5 m hm hm2
        · rintro ⟨h1, h2, h3, h4, h5⟩
          have hne : j ≠ i0 := by
            intro he; subst he; rw [hh'] at h4; cases h4
          exact ⟨by omega, by omega, h3, h4,
            fun m hm1 hm2 => h5 m (by omega) hm2⟩

theorem scanIdx_some_iff (b : Nat) (a h : Nat → Bool) (i0 j : Nat) :
    scanIdx b a h i0 = some j ↔
      (i0 ≤ j ∧ j < b ∧ a j = false ∧ h j = true ∧
        ∀ m, i0 ≤ m → m < j → a m = false ∧ h m = false) := by
  rw [scanIdx, scanIdxF_some_iff]
  constructor
  · rintro ⟨h1, h2, h3⟩; exact ⟨h1, by omega, h3⟩
  · rintro ⟨h1, h2, h3⟩; exact ⟨h1, by omega, h3⟩

theorem scanIdx_isSome_iff (b : Nat) (h : Nat → Bool) (i0 : Nat) :
    (scanIdx b (fun _ => false) h i0).isSome = true ↔
      ∃ j, i0 ≤ j ∧ j < b ∧ h j = true := by
  constructor
  · intro hs
    rcases Option.isSome_iff_exists.mp hs with ⟨j, hj⟩
    rcases (scanIdx_some_iff b _ h i0 j).mp hj with ⟨h1, h2, -, h4, -⟩
    exact ⟨j, h1, h2, h4⟩
  · rintro ⟨j, h1, h2, h3⟩
    have hex : ∃ k, i0 ≤ k ∧ k < b ∧ h k = true := ⟨j, h1, h2, h3⟩
    classical
    let P : Nat → Prop := fun k => i0 ≤ k ∧ k < b ∧ h k = true
    have hP : ∃ k, P k := hex
    let k0 := Nat.find hP
    have hk0 : P k0 := Nat.find_spec hP
    have hmin : ∀ m, m < k0 → ¬ P m := fun m hm => Nat.find_min hP hm
    have : scanIdx b (fun _ => false) h i0 = some k0 := by
      rw [scanIdx_some_iff]
      refine ⟨hk0.1, hk0.2.1, rfl, hk0.2.2, fun m hm1 hm2 => ?_⟩
      refine ⟨rfl, ?_⟩
      cases hv : h m with
      | false => rfl
      | true =>
        exact absurd ⟨hm1, by omega, hv⟩ (hmin m hm2)
    rw [this]; rfl

theorem scanIdx_none_of_abort (b : Nat) (a h : Nat → Bool) (i0 m : Nat)
    (h1 : i0 ≤ m) (h2 : a m = true)
    (h3 : ∀ i, i0 ≤ i → i < m → a i = false ∧ h i = false) :
    scanIdx b a h i0 = none := by
  cases hv : scanIdx b a h i0 with
  | none => rfl
  | some j =>
    rcases (scanIdx_some_iff b a h i0 j).mp hv with ⟨g1, g2, g3, g4, g5⟩
    rcases Nat.lt_trichotomy j m with hjm | hjm | hjm
    · have := (h3 j g1 hjm).2
      rw [g4] at this; cases this
    · subst hjm; rw [h2] at g3; cases g3
    · have := (g5 m h1 hjm).1
      rw [h2] at this; cases this

/-! ## C10: empty token stream -/

/-- Claim C10: for every input whose token stream is empty — the empty string,
whitespace-only text, or text consisting entirely of comments — `Validate`
returns `(true, [])`: no SELECT keyword token is discovered, so no issue can
be raised. -/
theorem c10_empty_token_stream (sql : String) (opts : Option Options)
    (h : lex (stripComments sql.data) = []) :
    Validate sql opts = (true, []) := by
  simp [Validate, h, selectSites]

/-- Witness for **C10** at the empty string and at comment-only text. -/
theorem c10_empty_token_stream_witness :
    lex (stripComments "".data) = [] ∧
    Validate "" none = (true, []) ∧
    lex (stripComments " /* just a comment */ -- trailing".data) = [] ∧
    Validate " /* just a comment */ -- trailing" none = (true, []) :=
  ⟨by decide, c10_empty_token_stream "" none (by decide),
   by decide,
   c10_empty_token_stream " /* just a comment */ -- trailing" none (by decide)⟩

/-! ## C3: the aggregate verdict and issue order -/

theorem selectSites_map_fst_sublist (toks : List Token) :
    ((selectSites toks).map Prod.fst).Sublist (List.range toks.length) := by
  rw [selectSites]
  generalize List.range toks.length = l
  induction l with
  | nil => simp
  | cons x xs ih =>
    rw [List.filterMap_cons]
    cases hx : toks[x]? with
    | none =>
      dsimp only
      simpa using ih.cons x
    | some t =>
      dsimp only
      by_cases hk : t.kind = TokenKind.tkKeyword ∧ t.val = "select".data
      · rw [if_pos hk]
        simpa using ih.cons₂ x
      · rw [if_neg hk]
        simpa using ih.cons x

/-- Claim C3: for every input text and options, `Validate` returns
`allPass = true` iff the returned issue list is empty, and the issues are the
per-SELECT verdicts taken in the order of the token index of the owning
SELECT keyword — `selectSites` enumerates the SELECT keyword indices in
strictly increasing (source) order and the issue list is its `filterMap`. -/
theorem c3_allpass_iff_no_issue_and_order (sql : String)
    (opts : Option Options) :
    ((Validate sql opts).1 = true ↔ (Validate sql opts).2 = []) ∧
    (Validate sql opts).2 =
      (selectSites (lex (stripComments sql.data))).filterMap
        (fun s => evalSelect (lex (stripComments sql.data))
          (effectiveTimeCols opts) s.1 s.2) ∧
    List.Pairwise (· < ·)
      ((selectSites (lex (stripComments sql.data))).map Prod.fst) := by
  refine ⟨?_, rfl, ?_⟩
  · show ((List.filterMap _ _).length == 0) = true ↔ _
    rw [Nat.beq_eq_true_eq, List.length_eq_zero]
    exact Iff.rfl
  · exact (List.pairwise_lt_range _).sublist
      (selectSites_map_fst_sublist _)

/-! ## C6: depth-scoped FROM search and FROM-less SELECTs -/

/-- Claim C6: the forward search for FROM considers only tokens at the SELECT's
exact depth (a hit carries depth `d`, keyword kind, and the searched word,
and no earlier token in the scanned range sits at a smaller depth); the
search aborts the moment a token at a strictly smaller depth is encountered;
a SELECT with no FROM found this way produces no issue; and the whole-input
query `SELECT 1` yields `allPass = true` with an empty issue list. -/
theorem c6_from_search_depth_scoped :
    (∀ (toks : List Token) (start : Nat) (d : Int) (w : List Char) (j : Nat),
      findNextKeywordAtDepth toks start d w = some j →
        start ≤ j ∧
        tokP toks j
          (fun t => t.depth = d ∧ t.kind = .tkKeyword ∧ t.val = w) = true ∧
        ∀ m, start ≤ m → m < j →
          tokP toks m (fun t => t.depth < d) = false) ∧
    (∀ (toks : List Token) (start : Nat) (d : Int) (w : List Char) (m : Nat),
      start ≤ m →
      tokP toks m (fun t => t.depth < d) = true →
      (∀ i, start ≤ i → i < m →
        tokP toks i (fun t => t.depth < d) = false ∧
        tokP toks i
          (fun t => t.depth = d ∧ t.kind = .tkKeyword ∧ t.val = w) = false) →
      findNextKeywordAtDepth toks start d w = none) ∧
    (∀ (toks : List Token) (timeCols : List (List Char)) (selIdx : Nat)
        (d : Int),
      findNextKeywordAtDepth toks (selIdx + 1) d "from".data = none →
      evalSelect toks timeCols selIdx d = none) ∧
    Validate "SELECT 1" none = (true, []) := by
  refine ⟨?_, ?_, ?_, by decide⟩
  · intro toks start d w j hj
    rcases (scanIdx_some_iff _ _ _ _ _).mp hj with ⟨h1, h2, h3, h4, h5⟩
    exact ⟨h1, h4, fun m hm1 hm2 => (h5 m hm1 hm2).1⟩
  · intro toks start d w m hm habort hpre
    exact scanIdx_none_of_abort _ _ _ start m hm habort hpre
  · intro toks timeCols selIdx d h
    simp [evalSelect, h]

/-- Witness for **C6**: the concrete nested query `(SELECT x) FROM` family.
For `(select x) from mydb.t` the inner SELECT sits at depth 1; its FROM
search aborts on the closing parenthesis token (depth 0) and the SELECT
yields no issue, while `select from` finds its FROM at the same depth. -/
theorem c6_from_search_depth_scoped_witness :
    findNextKeywordAtDepth (lex "(select x) from mydb.t".data) 2 1
        "from".data = none ∧
    evalSelect (lex "(select x) from mydb.t".data) defaultTimeCols 1 1 =
      none ∧
    (1 ≤ 1 ∧
      tokP (lex "select from".data) 1
        (fun t => t.depth = 0 ∧ t.kind = .tkKeyword ∧
          t.val = "from".data) = true) ∧
    Validate "SELECT 1" none = (true, []) :=
  ⟨c6_from_search_depth_scoped.2.1 (lex "(select x) from mydb.t".data) 2 1
      "from".data 3 (by decide) (by decide) (by decide),
   c6_from_search_depth_scoped.2.2.1 (lex "(select x) from mydb.t".data)
      defaultTimeCols 1 1
      (c6_from_search_depth_scoped.2.1 (lex "(select x) from mydb.t".data) 2 1
        "from".data 3 (by decide) (by decide) (by decide)),
   (fun h => ⟨h.1, h.2.1⟩)
     (c6_from_search_depth_scoped.1 (lex "select from".data) 1 0 "from".data 1
       (by decide)),
   c6_from_search_depth_scoped.2.2.2⟩

/-! ## C4: missing WHERE on a base-table SELECT -/

/-- Claim C4: for every SELECT classified as reading a base table, if no WHERE
keyword occurs at the SELECT's depth strictly between the FROM keyword and
the FROM clause terminator, then the SELECT yields exactly one issue, with
reason "missing WHERE clause with time filter", and no further check is
performed on it. -/
theorem c4_missing_where_issue (toks : List Token)
    (timeCols : List (List Char)) (selIdx : Nat) (d : Int) (fromIdx : Nat)
    (hfrom : findNextKeywordAtDepth toks (selIdx + 1) d "from".data =
      some fromIdx)
    (hbase : fromStartsWithBaseTable toks (fromIdx + 1)
      (findNextTerminatorAtDepth toks (fromIdx + 1) d) d = true)
    (hnowhere : ∀ i, i < findNextTerminatorAtDepth toks (fromIdx + 1) d →
      fromIdx < i →
      tokP toks i
        (fun t => t.depth = d ∧ t.kind = .tkKeyword ∧
          t.val = "where".data) = false) :
    evalSelect toks timeCols selIdx d =
      some ⟨snippetAroundTokens toks selIdx
          (findNextTerminatorAtDepth toks (fromIdx + 1) d),
        reasonMissingWhere, d⟩ := by
  have hbet : findNextKeywordBetweenAtDepth toks (fromIdx + 1)
      (findNextTerminatorAtDepth toks (fromIdx + 1) d) d "where".data =
      none := by
    cases hv : findNextKeywordBetweenAtDepth toks (fromIdx + 1)
        (findNextTerminatorAtDepth toks (fromIdx + 1) d) d "where".data with
    | none => rfl
    | some j =>
      rcases (scanIdx_some_iff _ _ _ _ _).mp hv with ⟨g1, g2, -, g4, -⟩
      have := hnowhere j (by omega) (by omega)
      rw [g4] at this; cases this
  simp [evalSelect, hfrom, hbase, hbet]

/-- Witness for **C4** at `SELECT * FROM mydb.s1`. -/
theorem c4_missing_where_issue_witness :
    evalSelect (lex "SELECT * FROM mydb.s1".data) defaultTimeCols 0 0 =
      some ⟨snippetAroundTokens (lex "SELECT * FROM mydb.s1".data) 0
          (findNextTerminatorAtDepth (lex "SELECT * FROM mydb.s1".data) 3 0),
        reasonMissingWhere, 0⟩ :=
  c4_missing_where_issue (lex "SELECT * FROM mydb.s1".data) defaultTimeCols
    0 0 2 (by decide) (by decide) (by decide)

/-! ## C8: depth invariants of the lexer -/

theorem lexAuxF_depth_nonneg (fuel : Nat) (δ : Int) (s : List Char) :
    0 ≤ δ → ∀ t ∈ lexAuxF fuel δ s, 0 ≤ t.depth := by
  induction fuel, δ, s using lexAuxF.induct <;> intro hδ t ht <;>
    simp +decide [lexAuxF, *] at ht <;>
    first
      | exact ht.elim
      | (rename_i ih
         rcases ht with rfl | ht
         · first
            | exact hδ
            | (dsimp only; split <;> omega)
            | (rw [apply_ite Token.depth]
               split <;> (dsimp only; omega))
         · first
            | exact ih hδ t ht
            | exact ih (by omega) t ht
            | (simp only [sub_neg] at ih
               exact ih (by split <;> omega) t ht))
      | (rename_i ih
         exact ih hδ t ht)

/-- Claim C8: every token emitted by the lexer has a non-negative depth; `(` is
emitted at the depth current before incrementing; `)` processed while the
running depth is `δ + 1 ≥ 1` is emitted at the post-decrement depth `δ` — so
a correctly matched pair of parenthesis tokens both carry the shallower of
the two depths they touch — and an unmatched `)` at running depth 0 clamps
the depth at 0 instead of going negative. -/
theorem c8_lexer_depth_invariants :
    (∀ (s : List Char), ∀ t ∈ lex s, 0 ≤ t.depth) ∧
    (∀ (δ : Int) (rest : List Char),
      lexAux δ ('(' :: rest) =
        ⟨['('], .tkSymbol, δ⟩ :: lexAux (δ + 1) rest) ∧
    (∀ (δ : Int) (rest : List Char), 0 ≤ δ →
      lexAux (δ + 1) (')' :: rest) =
        ⟨[')'], .tkSymbol, δ⟩ :: lexAux δ rest) ∧
    (∀ (rest : List Char),
      lexAux 0 (')' :: rest) = ⟨[')'], .tkSymbol, 0⟩ :: lexAux 0 rest) := by
  refine ⟨?_, ?_, ?_, ?_⟩
  · intro s t ht
    exact lexAuxF_depth_nonneg s.length 0 s (by omega) t ht
  · intro δ rest
    show lexAuxF (rest.length + 1) δ ('(' :: rest) = _
    rw [lexAuxF.eq_def]
    simp [isSpaceChar, lexAux]
  · intro δ rest hδ
    show lexAuxF (rest.length + 1) (δ + 1) (')' :: rest) = _
    rw [lexAuxF.eq_def]
    have h2 : ¬(δ + 1 - 1 < 0) := by omega
    simp only [isSpaceChar, if_neg, reduceCtorEq, reduceIte, h2]
    simp [lexAux]
  · intro rest
    show lexAuxF (rest.length + 1) 0 (')' :: rest) = _
    rw [lexAuxF.eq_def]
    simp [isSpaceChar, lexAux]

/-! ## C9: identifier/keyword runs -/

theorem identStart_facts (c : Char) (hc : isIdentStart c = true) :
    c ≠ '\\' ∧ isSpaceChar c = false ∧ c ≠ '(' ∧ c ≠ ')' ∧ c ≠ '\'' ∧
      c ≠ '"' ∧ isNumStart c = false := by
  rw [isIdentStart] at hc
  simp only [Bool.or_eq_true, decide_eq_true_eq] at hc
  rcases hc with (ha | h1) | h2
  · rw [Char.isAlpha, Char.isUpper, Char.isLower] at ha
    simp only [Bool.or_eq_true, Bool.and_eq_true, decide_eq_true_eq,
      ge_iff_le] at ha
    have hv : (65 ≤ c.val.toNat ∧ c.val.toNat ≤ 90) ∨
        (97 ≤ c.val.toNat ∧ c.val.toNat ≤ 122) := by
      rcases ha with ⟨x, y⟩ | ⟨x, y⟩
      · exact Or.inl ⟨x, y⟩
      · exact Or.inr ⟨x, y⟩
    refine ⟨?_, ?_, ?_, ?_, ?_, ?_, ?_⟩
    · intro h; rw [h] at hv; revert hv; decide
    · cases hsp : isSpaceChar c with
      | false => rfl
      | true =>
        exfalso
        rw [isSpaceChar] at hsp
        simp only [Bool.or_eq_true, decide_eq_true_eq] at hsp
        rcases hsp with ((((((h | h) | h) | h) | h) | h) | h) | h <;>
          (rw [h] at hv; revert hv; decide)
    · intro h; rw [h] at hv; revert hv; decide
    · intro h; rw [h] at hv; revert hv; decide
    · intro h; rw [h] at hv; revert hv; decide
    · intro h; rw [h] at hv; revert hv; decide
    · cases hd : isNumStart c with
      | false => rfl
      | true =>
        exfalso
        rw [isNumStart, Char.isDigit] at hd
        simp only [Bool.and_eq_true, decide_eq_true_eq, ge_iff_le] at hd
        have hb : 48 ≤ c.val.toNat ∧ c.val.toNat ≤ 57 := ⟨hd.1, hd.2⟩
        omega
  · subst h1
    exact ⟨by decide, by decide, by decide, by decide, by decide, by decide,
      by decide⟩
  · subst h2
    exact ⟨by decide, by decide, by decide, by decide, by decide, by decide,
      by decide⟩

theorem lexAuxF_ident_step (fuel : Nat) (δ : Int) (c : Char)
    (cs : List Char) (hc : isIdentStart c = true) :
    lexAuxF (fuel + 1) δ (c :: cs) =
      (if keywordsList.contains (toLowerL (c :: cs.takeWhile isIdentPart)) then
        (⟨toLowerL (c :: cs.takeWhile isIdentPart), .tkKeyword, δ⟩ : Token)
       else ⟨toLowerL (c :: cs.takeWhile isIdentPart), .tkIdent, δ⟩) ::
        lexAuxF fuel δ (cs.dropWhile isIdentPart) := by
  obtain ⟨h1, h2, h3, h4, h5, h6, h7⟩ := identStart_facts c hc
  simp [lexAuxF, h1, h2, h3, h4, h5, h6, h7, hc]

/-- Claim C9 (amended: the keyword set has 27 words, not 26): an unquoted
maximal run starting with a letter, underscore, or `$`, continuing with
letters, digits, underscore, dot, or `$`, is lexed as a single token — so
`$__database.$__table` and `db.table` each become one token — case-folded to
lowercase, and emitted as a Keyword token exactly when the folded value is in
the fixed 27-word keyword set, otherwise as an Identifier token. -/
theorem c9_ident_run_lexing :
    (∀ (fuel : Nat) (δ : Int) (c : Char) (cs : List Char),
      isIdentStart c = true →
      lexAuxF (fuel + 1) δ (c :: cs) =
        (if keywordsList.contains
            (toLowerL (c :: cs.takeWhile isIdentPart)) then
          (⟨toLowerL (c :: cs.takeWhile isIdentPart), .tkKeyword, δ⟩ : Token)
         else ⟨toLowerL (c :: cs.takeWhile isIdentPart), .tkIdent, δ⟩) ::
          lexAuxF fuel δ (cs.dropWhile isIdentPart)) ∧
    keywordsList.length = 27 ∧
    lex "$__database.$__table".data =
      [⟨"$__database.$__table".data, .tkIdent, 0⟩] ∧
    lex "db.table".data = [⟨"db.table".data, .tkIdent, 0⟩] ∧
    lex "SELECT".data = [⟨"select".data, .tkKeyword, 0⟩] :=
  ⟨lexAuxF_ident_step, by decide, by decide, by decide, by decide⟩

/-- Counterexample to **C9** as stated: the fixed keyword set of the lexer
contains 27 distinct words, not 26. -/
theorem c9_keyword_set_counterexample :
    keywordsList.length = 27 ∧ keywordsList.Nodup ∧
      ¬ keywordsList.length = 26 := by decide

/-- Witness for **C9**: lexing the run `as` (starting at the letter `a`)
yields the single keyword token `as`. -/
theorem c9_ident_run_lexing_witness :
    lexAuxF (1 + 1) 0 ('a' :: 's' :: []) =
      (if keywordsList.contains
          (toLowerL ('a' :: ('s' :: []).takeWhile isIdentPart)) then
        (⟨toLowerL ('a' :: ('s' :: []).takeWhile isIdentPart),
          .tkKeyword, 0⟩ : Token)
       else ⟨toLowerL ('a' :: ('s' :: []).takeWhile isIdentPart),
          .tkIdent, 0⟩) ::
        lexAuxF 1 0 (('s' :: []).dropWhile isIdentPart) :=
  c9_ident_run_lexing.1 1 0 'a' ('s' :: []) (by decide)

/-- Witness for **C8**: a matched pair around one identifier — both
parenthesis tokens of `(x)` carry depth 0, the shallower of the two depths
they touch. -/
theorem c8_lexer_depth_invariants_witness :
    lexAux (0 + 1) (')' :: 'x' :: []) =
      ⟨[')'], .tkSymbol, 0⟩ :: lexAux 0 ('x' :: []) ∧
    lex "(x)".data =
      [⟨['('], .tkSymbol, 0⟩, ⟨['x'], .tkIdent, 1⟩, ⟨[')'], .tkSymbol, 0⟩] :=
  ⟨c8_lexer_depth_invariants.2.2.1 0 ('x' :: []) (by omega), by decide⟩

/-! ## C7: comment stripping -/

theorem markFree_cons (x : Char) (a : List Char)
    (h : markFree (x :: a) = true) : markFree a = true := by
  rw [markFree, Bool.and_eq_true] at h ⊢
  obtain ⟨h1, h2⟩ := h
  refine ⟨?_, ?_⟩
  · cases a with
    | nil => rfl
    | cons y a' =>
      rw [noMarkerPair] at h1
      by_cases hp : (x = '-' ∧ y = '-') ∨ (x = '/' ∧ y = '*')
      · rw [if_pos hp] at h1; cases h1
      · rw [if_neg hp] at h1; exact h1
  · cases a with
    | nil => rfl
    | cons y a' =>
      rw [lastSafe] at h2 ⊢
      rwa [List.getLast?_cons_cons] at h2

theorem markFree_head_pair (x d : Char) (l : List Char)
    (h : markFree (x :: d :: l) = true) :
    ¬(x = '-' ∧ d = '-') ∧ ¬(x = '/' ∧ d = '*') := by
  rw [markFree, Bool.and_eq_true, noMarkerPair] at h
  obtain ⟨h1, -⟩ := h
  by_cases hp : (x = '-' ∧ d = '-') ∨ (x = '/' ∧ d = '*')
  · rw [if_pos hp] at h1; cases h1
  · exact ⟨fun hx => hp (Or.inl hx), fun hx => hp (Or.inr hx)⟩

theorem markFree_single (x : Char) (h : markFree [x] = true) :
    ¬ x = '-' ∧ ¬ x = '/' := by
  rw [markFree, Bool.and_eq_true, lastSafe] at h
  obtain ⟨-, h2⟩ := h
  simp only [List.getLast?_singleton, Bool.and_eq_true, Bool.not_eq_true',
    beq_eq_false_iff_ne, ne_eq] at h2
  exact h2

/-- Comment-marker-free text is copied verbatim by the comment stripper, in
normal mode, whatever follows it. -/
theorem scAux_copy_markFree (a : List Char) (rest : List Char)
    (h : markFree a = true) :
    scAux false false (a ++ rest) = a ++ scAux false false rest := by
  induction a with
  | nil => rfl
  | cons x a' ih =>
    have hmf : markFree a' = true := markFree_cons x a' h
    cases ha : a' ++ rest with
    | nil =>
      have ha' : a' = [] := by
        cases a' with
        | nil => rfl
        | cons e a'' => simp at ha
      have hr : rest = [] := by
        subst ha'; simpa using ha
      subst ha'; subst hr
      simp [scAux]
    | cons d tail =>
      have hpair : ¬(x = '-' ∧ d = '-') ∧ ¬(x = '/' ∧ d = '*') := by
        cases a' with
        | nil =>
          obtain ⟨hx1, hx2⟩ := markFree_single x h
          exact ⟨fun hx => hx1 hx.1, fun hx => hx2 hx.1⟩
        | cons e a'' =>
          have hd : d = e := by simp at ha; exact ha.1.symm
          subst hd
          exact markFree_head_pair x d a'' h
      have hstep : x :: (a' ++ rest) = x :: d :: tail := by rw [ha]
      rw [List.cons_append, hstep]
      simp only [scAux, Bool.false_eq_true, if_false, if_neg hpair.1,
        if_neg hpair.2]
      rw [← ha, ih hmf]
      rfl

/-- Inside a block comment, text with no `*/` is discarded up to the
terminator. -/
theorem scAux_block_discard (c : List Char) (b : List Char)
    (h : noBlockEnd c = true) :
    scAux false true (c ++ '*' :: '/' :: b) = scAux false false b := by
  induction c with
  | nil => simp +decide [scAux]
  | cons x c' ih =>
    cases c' with
    | nil =>
      have hx : ¬(x = '*' ∧ ('*' : Char) = '/') := fun hx => by
        exact absurd hx.2 (by decide)
      simp only [List.cons_append, List.nil_append]
      simp only [scAux, Bool.false_eq_true, if_false, if_true, if_neg hx]
      simp +decide [scAux]
    | cons y c'' =>
      have hp : ¬(x = '*' ∧ y = '/') := by
        rw [noBlockEnd] at h
        by_cases hxy : x = '*' ∧ y = '/'
        · rw [if_pos hxy] at h; cases h
        · exact hxy
      have h' : noBlockEnd (y :: c'') = true := by
        rw [noBlockEnd, if_neg hp] at h; exact h
      have := ih h'
      simp only [List.cons_append] at this ⊢
      simp only [scAux, Bool.false_eq_true, if_false, if_true, if_neg hp]
      exact this

/-- Inside a line comment, text with no newline is discarded; the newline
itself is kept and returns the stripper to normal mode. -/
theorem scAux_line_discard (c : List Char) (b : List Char)
    (h : c.contains '\n' = false) :
    scAux true false (c ++ '\n' :: b) = '\n' :: scAux false false b := by
  induction c with
  | nil =>
    cases b with
    | nil => simp [scAux]
    | cons y b' => simp [scAux]
  | cons x c' ih =>
    have hx : ¬ x = '\n' := by
      intro he; subst he
      simp [List.contains_cons] at h
    have h' : c'.contains '\n' = false := by
      simp only [List.contains_cons, Bool.or_eq_false_iff] at h
      exact h.2
    cases hsplit : c' ++ '\n' :: b with
    | nil => simp at hsplit
    | cons d tail =>
      have := ih h'
      rw [hsplit] at this
      simp only [List.cons_append, hsplit]
      simp only [scAux, if_true, if_neg hx]
      exact this

/-- Claim C7: comment stripping runs before lexing (by definition of
`Validate`) and removes the interior of every `/* ... */` block comment and
every `-- ...` line comment (newline preserved), so no token originates from
comment content; consequently a time predicate written only inside a comment
cannot satisfy time-predicate detection, and in particular
`SELECT * FROM mydb.s1 WHERE /* time >= ago(1h) */ measure_name = 'x'`
yields `allPass = false` (with the missing-time-predicate reason). -/
theorem c7_comments_stripped_before_lexing :
    (∀ a c b : List Char, markFree a = true → noBlockEnd c = true →
      stripComments (a ++ '/' :: '*' :: (c ++ '*' :: '/' :: b)) =
        a ++ stripComments b) ∧
    (∀ a c b : List Char, markFree a = true → c.contains '\n' = false →
      stripComments (a ++ '-' :: '-' :: (c ++ '\n' :: b)) =
        a ++ '\n' :: stripComments b) ∧
    (Validate
        "SELECT * FROM mydb.s1 WHERE /* time >= ago(1h) */ measure_name = 'x'"
        none).1 = false ∧
    ((Validate
        "SELECT * FROM mydb.s1 WHERE /* time >= ago(1h) */ measure_name = 'x'"
        none).2.map Issue.reason) = [reasonNoTimePredicate] := by
  refine ⟨?_, ?_, by decide, by decide⟩
  · intro a c b ha hc
    rw [stripComments, stripComments, scAux_copy_markFree a _ ha]
    congr 1
    show scAux false false ('/' :: '*' :: (c ++ '*' :: '/' :: b)) = _
    simp only [scAux, Bool.false_eq_true, if_false]
    rw [if_neg (by decide), if_pos (by decide)]
    exact scAux_block_discard c b hc
  · intro a c b ha hc
    rw [stripComments, stripComments, scAux_copy_markFree a _ ha]
    congr 1
    show scAux false false ('-' :: '-' :: (c ++ '\n' :: b)) = _
    simp only [scAux, Bool.false_eq_true, if_false]
    rw [if_pos (by decide)]
    exact scAux_line_discard c b hc

/-- Witness for **C7**: removal of a block comment and of a line comment at
concrete surrounding text. -/
theorem c7_comments_stripped_before_lexing_witness :
    stripComments ("x = 1 ".data ++ '/' :: '*' ::
        (" time >= now ".data ++ '*' :: '/' :: " y".data)) =
      "x = 1 ".data ++ stripComments " y".data ∧
    stripComments ("x = 1 ".data ++ '-' :: '-' ::
        (" time >= now".data ++ '\n' :: " y".data)) =
      "x = 1 ".data ++ '\n' :: stripComments " y".data :=
  ⟨c7_comments_stripped_before_lexing.1 "x = 1 ".data " time >= now ".data
      " y".data (by decide) (by decide),
   c7_comments_stripped_before_lexing.2.1 "x = 1 ".data " time >= now".data
      " y".data (by decide) (by decide)⟩

/-! ## C5: WHERE bodies starting with a dangling conjunction -/

/-- Claim C5: for every base-table SELECT with a WHERE clause, if — after
skipping tokens at other depths, stray symbols, and serialized-escape
artifacts — the first meaningful token of the WHERE body is the keyword AND
or OR, or the WHERE body is empty (that is, `whereStartsWithConjunction`
holds on the WHERE body span), then the SELECT yields exactly one issue,
with reason "WHERE clause starts with AND/OR; no predicate before it", and
time-predicate detection is not performed for it; conversely that reason is
only ever produced when the condition holds, so the missing-time-predicate
reason is never also raised for the same SELECT. -/
theorem c5_where_dangling_conjunction (toks : List Token)
    (timeCols : List (List Char)) (selIdx : Nat) (d : Int)
    (fromIdx whereIdx : Nat)
    (hfrom : findNextKeywordAtDepth toks (selIdx + 1) d "from".data =
      some fromIdx)
    (hbase : fromStartsWithBaseTable toks (fromIdx + 1)
      (findNextTerminatorAtDepth toks (fromIdx + 1) d) d = true)
    (hwhere : findNextKeywordBetweenAtDepth toks (fromIdx + 1)
      (findNextTerminatorAtDepth toks (fromIdx + 1) d) d "where".data =
      some whereIdx) :
    (whereStartsWithConjunction toks (whereIdx + 1)
        (findNextTerminatorAtDepth toks (whereIdx + 1) d) d = true →
      evalSelect toks timeCols selIdx d =
        some ⟨snippetAroundTokens toks selIdx
            (findNextTerminatorAtDepth toks (whereIdx + 1) d),
          reasonConjunction, d⟩) ∧
    (∀ is : Issue, evalSelect toks timeCols selIdx d = some is →
      is.reason = reasonConjunction →
      whereStartsWithConjunction toks (whereIdx + 1)
        (findNextTerminatorAtDepth toks (whereIdx + 1) d) d = true) := by
  constructor
  · intro hconj
    simp [evalSelect, hfrom, hbase, hwhere, hconj]
  · intro is his hreason
    by_cases hcj : whereStartsWithConjunction toks (whereIdx + 1)
        (findNextTerminatorAtDepth toks (whereIdx + 1) d) d = true
    · exact hcj
    · exfalso
      have hcj' : whereStartsWithConjunction toks (whereIdx + 1)
          (findNextTerminatorAtDepth toks (whereIdx + 1) d) d = false := by
        cases hv : whereStartsWithConjunction toks (whereIdx + 1)
            (findNextTerminatorAtDepth toks (whereIdx + 1) d) d with
        | true => exact absurd hv hcj
        | false => rfl
      by_cases htp : whereHasTimePredicate toks (whereIdx + 1)
          (findNextTerminatorAtDepth toks (whereIdx + 1) d) d timeCols = true
      · simp [evalSelect, hfrom, hbase, hwhere, hcj', htp] at his
      · have htp' : whereHasTimePredicate toks (whereIdx + 1)
            (findNextTerminatorAtDepth toks (whereIdx + 1) d) d timeCols =
            false := by
          cases hv : whereHasTimePredicate toks (whereIdx + 1)
              (findNextTerminatorAtDepth toks (whereIdx + 1) d) d timeCols with
          | true => exact absurd hv htp
          | false => rfl
        simp [evalSelect, hfrom, hbase, hwhere, hcj', htp'] at his
        rw [← his] at hreason
        dsimp only at hreason
        exact absurd hreason (by decide)

/-- Witness for **C5** at `SELECT * FROM mydb.s1 WHERE AND x = 1`. -/
theorem c5_where_dangling_conjunction_witness :
    evalSelect (lex "SELECT * FROM mydb.s1 WHERE AND x = 1".data)
        defaultTimeCols 0 0 =
      some ⟨snippetAroundTokens
          (lex "SELECT * FROM mydb.s1 WHERE AND x = 1".data) 0
          (findNextTerminatorAtDepth
            (lex "SELECT * FROM mydb.s1 WHERE AND x = 1".data) 5 0),
        reasonConjunction, 0⟩ :=
  (c5_where_dangling_conjunction
      (lex "SELECT * FROM mydb.s1 WHERE AND x = 1".data) defaultTimeCols
      0 0 2 4 (by decide) (by decide) (by decide)).1 (by decide)

/-! ## C2: base-table classification of the FROM source -/

theorem tokP_eq_true_iff (toks : List Token) (m : Nat) (p : Token → Bool) :
    tokP toks m p = true ↔ ∃ t, toks[m]? = some t ∧ p t = true := by
  rw [tokP]
  cases htm : toks[m]? <;> simp [htm]

theorem tokP_eq_false_iff (toks : List Token) (m : Nat) (p : Token → Bool) :
    tokP toks m p = false ↔ ∀ t, toks[m]? = some t → p t = false := by
  rw [tokP]
  cases htm : toks[m]? <;> simp [htm]

theorem tokP_lt_length {toks : List Token} {m : Nat} {p : Token → Bool}
    (h : tokP toks m p = true) : m < toks.length := by
  rw [tokP] at h
  cases htm : toks[m]? with
  | none => rw [htm] at h; cases h
  | some t =>
    by_contra h'
    rw [List.getElem?_eq_none (by omega)] at htm
    cases htm

theorem nextAtDepth_scan_iff (toks : List Token) (stop : Nat) (d : Int)
    (i j : Nat) :
    scanIdx stop (fun _ => false)
      (fun j' => tokP toks j' (fun t => t.depth = d)) (i + 1) = some j ↔
    NextAtDepth toks stop d i j := by
  rw [scanIdx_some_iff, NextAtDepth]
  constructor
  · rintro ⟨h1, h2, -, h4, h5⟩
    exact ⟨by omega, h2, h4, fun m hm1 hm2 => (h5 m (by omega) hm2).2⟩
  · rintro ⟨h1, h2, h3, h4⟩
    exact ⟨by omega, h2, rfl, h3, fun m hm1 hm2 => ⟨rfl, h4 m (by omega) hm2⟩⟩

theorem from_skip_equiv (toks : List Token) (d : Int) (m : Nat)
    (hm : m < toks.length) :
    tokP toks m (fun t =>
      t.depth ≠ d ∨ (t.kind = .tkSymbol ∧ t.val ≠ "(".data) ∨
      (t.kind = .tkKeyword ∧ t.val ≠ "select".data)) = true ↔
    (tokP toks m (fun t => t.depth = d ∧
        ((t.kind = .tkSymbol ∧ t.val = "(".data) ∨
         (t.kind = .tkKeyword ∧ t.val = "select".data))) = false ∧
     tokP toks m (fun t =>
        t.depth = d ∧ t.kind ≠ .tkSymbol ∧ t.kind ≠ .tkKeyword) = false) := by
  have ⟨t, htm⟩ : ∃ t, toks[m]? = some t := by
    rw [List.getElem?_eq_getElem hm]
    exact ⟨_, rfl⟩
  rw [tokP, tokP, tokP, htm]
  simp only [decide_eq_true_eq, decide_eq_false_iff_not]
  cases htk : t.kind <;> by_cases hd : t.depth = d <;> simp [htk, hd] <;>
    tauto

theorem tokP_from_hit_no_abort (toks : List Token) (d : Int) (m : Nat)
    (h : tokP toks m (fun t =>
      t.depth = d ∧ t.kind ≠ .tkSymbol ∧ t.kind ≠ .tkKeyword) = true) :
    tokP toks m (fun t => t.depth = d ∧
      ((t.kind = .tkSymbol ∧ t.val = "(".data) ∨
       (t.kind = .tkKeyword ∧ t.val = "select".data))) = false := by
  rw [tokP] at h ⊢
  cases htm : toks[m]? with
  | none => rfl
  | some t =>
    rw [htm] at h
    simp only [decide_eq_true_eq] at h
    simp only [decide_eq_false_iff_not]
    rintro ⟨-, ⟨hk, -⟩ | ⟨hk, -⟩⟩
    · exact h.2.1 hk
    · exact h.2.2 hk

theorem fromFirstMeaningful_scan_iff (toks : List Token) (start stop : Nat)
    (d : Int) (i : Nat) (hs : stop ≤ toks.length) :
    scanIdx (min stop toks.length)
      (fun m => tokP toks m (fun t => t.depth = d ∧
        ((t.kind = .tkSymbol ∧ t.val = "(".data) ∨
         (t.kind = .tkKeyword ∧ t.val = "select".data))))
      (fun m => tokP toks m (fun t =>
        t.depth = d ∧ t.kind ≠ .tkSymbol ∧ t.kind ≠ .tkKeyword))
      start = some i ↔
    FromFirstMeaningful toks start stop d i := by
  rw [Nat.min_eq_left hs, scanIdx_some_iff, FromFirstMeaningful]
  constructor
  · rintro ⟨h1, h2, h3, h4, h5⟩
    refine ⟨h1, h2, h4, fun m hm1 hm2 => ?_⟩
    have hm : m < toks.length := by omega
    exact (from_skip_equiv toks d m hm).mpr ⟨(h5 m hm1 hm2).1, (h5 m hm1 hm2).2⟩
  · rintro ⟨h1, h2, h3, h4⟩
    refine ⟨h1, h2, tokP_from_hit_no_abort toks d i h3, h3,
      fun m hm1 hm2 => ?_⟩
    have hm : m < toks.length := by omega
    exact (from_skip_equiv toks d m hm).mp (h4 m hm1 hm2)

/-- Claim C2: the FROM source is classified as a base table iff its first
meaningful token at depth `d` is an Identifier that either contains a dot in
its quote-stripped value and is not followed (at the same depth, within the
span) by `(`, or forms an `Identifier '.' Identifier` pattern at depth `d`;
a first meaningful token that is `(`, the keyword SELECT, or a single bare
dotless identifier yields false, and a SELECT classified as
not-a-base-table produces no issue. -/
theorem c2_from_base_table_classification (toks : List Token)
    (start stop : Nat) (d : Int) (hs : stop ≤ toks.length) :
    (fromStartsWithBaseTable toks start stop d = true ↔
      FromBaseTableSpec toks start stop d) ∧
    (∀ (timeCols : List (List Char)) (selIdx fromIdx : Nat),
      findNextKeywordAtDepth toks (selIdx + 1) d "from".data =
        some fromIdx →
      fromStartsWithBaseTable toks (fromIdx + 1)
        (findNextTerminatorAtDepth toks (fromIdx + 1) d) d = false →
      evalSelect toks timeCols selIdx d = none) := by
  constructor
  · rw [fromStartsWithBaseTable]
    cases hscan : scanIdx (min stop toks.length)
        (fun m => tokP toks m (fun t => t.depth = d ∧
          ((t.kind = .tkSymbol ∧ t.val = "(".data) ∨
           (t.kind = .tkKeyword ∧ t.val = "select".data))))
        (fun m => tokP toks m (fun t =>
          t.depth = d ∧ t.kind ≠ .tkSymbol ∧ t.kind ≠ .tkKeyword))
        start with
    | none =>
      simp only [Bool.false_eq_true, false_iff]
      rintro ⟨i, hfm, -, -⟩
      have := (fromFirstMeaningful_scan_iff toks start stop d i hs).mpr hfm
      rw [hscan] at this
      cases this
    | some i =>
      have hfmi : FromFirstMeaningful toks start stop d i :=
        (fromFirstMeaningful_scan_iff toks start stop d i hs).mp hscan
      have hiuniq : ∀ i', FromFirstMeaningful toks start stop d i' →
          i' = i := by
        intro i' hfm'
        have := (fromFirstMeaningful_scan_iff toks start stop d i' hs).mpr
          hfm'
        rw [hscan] at this
        injection this with he
        exact he.symm
      dsimp only
      by_cases hident : tokP toks i (fun t => t.kind = .tkIdent) = true
      · rw [if_pos hident]
        by_cases hdot : (stripQuotes (tokVal toks i)).contains '.' = true
        · rw [if_pos hdot]
          cases hscan2 : scanIdx stop (fun _ => false)
              (fun j => tokP toks j (fun t => t.depth = d)) (i + 1) with
          | none =>
            dsimp only
            constructor
            · intro _
              refine ⟨i, hfmi, hident, Or.inl ⟨hdot, fun j hj => ?_⟩⟩
              have := (nextAtDepth_scan_iff toks stop d i j).mpr hj
              rw [hscan2] at this
              cases this
            · intro _; rfl
          | some j =>
            dsimp only
            have hnext : NextAtDepth toks stop d i j :=
              (nextAtDepth_scan_iff toks stop d i j).mp hscan2
            constructor
            · intro h
              have hparen : tokP toks j
                  (fun t => t.kind = .tkSymbol ∧ t.val = "(".data) = false := by
                cases hv : tokP toks j
                    (fun t => t.kind = .tkSymbol ∧ t.val = "(".data) with
                | false => rfl
                | true => rw [hv] at h; cases h
              refine ⟨i, hfmi, hident, Or.inl ⟨hdot, fun j' hj' => ?_⟩⟩
              have := (nextAtDepth_scan_iff toks stop d i j').mpr hj'
              rw [hscan2] at this
              injection this with he
              rw [← he]
              exact hparen
            · rintro ⟨i', hfm', hident', hcase⟩
              have he := hiuniq i' hfm'
              rw [he] at hcase
              rcases hcase with ⟨-, hall⟩ | ⟨hlt, h1, h2⟩
              · rw [hall j hnext]
                rfl
              · -- the `Identifier '.' Identifier` pattern: the next token at
                -- depth d after i is i+1, which carries `.`, not `(`.
                have hn1 : NextAtDepth toks stop d i (i + 1) := by
                  refine ⟨by omega, by omega, ?_, fun m hm1 hm2 => by omega⟩
                  rcases (tokP_eq_true_iff _ _ _).mp h1 with ⟨t, htm, hp⟩
                  refine (tokP_eq_true_iff _ _ _).mpr ⟨t, htm, ?_⟩
                  simp only [decide_eq_true_eq] at hp ⊢
                  exact hp.1
                have := (nextAtDepth_scan_iff toks stop d i (i+1)).mpr hn1
                rw [hscan2] at this
                injection this with he2
                subst he2
                have hjparen : tokP toks (i+1)
                    (fun t => t.kind = .tkSymbol ∧ t.val = "(".data) =
                    false := by
                  rcases (tokP_eq_true_iff _ _ _).mp h1 with ⟨t, htm, hp⟩
                  refine (tokP_eq_false_iff _ _ _).mpr fun t' htm' => ?_
                  rw [htm] at htm'
                  injection htm' with he3
                  subst he3
                  simp only [decide_eq_true_eq] at hp
                  simp only [decide_eq_false_iff_not]
                  rintro ⟨-, hv⟩
                  rw [hp.2.2] at hv
                  exact absurd hv (by decide)
                rw [hjparen]
                rfl
        · have hdot' : (stripQuotes (tokVal toks i)).contains '.' = false := by
            cases hv : (stripQuotes (tokVal toks i)).contains '.' with
            | false => rfl
            | true => exact absurd hv hdot
          rw [if_neg (by rw [hdot'] ; exact Bool.false_ne_true)]
          constructor
          · intro h
            split at h
            next hcond =>
              simp only [Bool.and_eq_true, decide_eq_true_eq] at hcond
              exact ⟨i, hfmi, hident, Or.inr
                ⟨hcond.1.1, hcond.1.2, hcond.2⟩⟩
            next hcond => cases h
          · rintro ⟨i', hfm', hident', hcase⟩
            have he := hiuniq i' hfm'
            rw [he] at hcase
            rcases hcase with ⟨hdot2, -⟩ | ⟨hlt, h1, h2⟩
            · rw [hdot'] at hdot2; cases hdot2
            · have hcond : (decide (i + 2 < stop) &&
                  tokP toks (i+1) (fun t => t.depth = d ∧
                    t.kind = .tkSymbol ∧ t.val = ".".data) &&
                  tokP toks (i+2) (fun t => t.depth = d ∧
                    t.kind = .tkIdent)) = true := by
                simp only [Bool.and_eq_true, decide_eq_true_eq]
                exact ⟨⟨hlt, h1⟩, h2⟩
              rw [if_pos hcond]
      · have hident' : tokP toks i (fun t => t.kind = .tkIdent) = false := by
          cases hv : tokP toks i (fun t => t.kind = .tkIdent) with
          | false => rfl
          | true => exact absurd hv hident
        rw [if_neg (by rw [hident'] ; exact Bool.false_ne_true)]
        constructor
        · intro h; cases h
        · rintro ⟨i', hfm', hident2, -⟩
          have he := hiuniq i' hfm'
          rw [he] at hident2
          rw [hident'] at hident2
          cases hident2
  · intro timeCols selIdx fromIdx h1 h2
    simp [evalSelect, h1, h2]

/-- Witness for **C2** at `SELECT * FROM a`: the FROM source is a single
bare dotless identifier (a CTE-alias shape), so the classification
equivalence is instantiated concretely and the SELECT produces no issue. -/
theorem c2_from_base_table_classification_witness :
    (fromStartsWithBaseTable (lex "SELECT * FROM a".data) 3 4 0 = true ↔
      FromBaseTableSpec (lex "SELECT * FROM a".data) 3 4 0) ∧
    evalSelect (lex "SELECT * FROM a".data) defaultTimeCols 0 0 = none :=
  ⟨(c2_from_base_table_classification (lex "SELECT * FROM a".data) 3 4 0
      (by decide)).1,
   (c2_from_base_table_classification (lex "SELECT * FROM a".data) 0 0 0
      (by decide)).2 defaultTimeCols 0 2 (by decide) (by decide)⟩

/-! ## C1: time-predicate detection in WHERE bodies -/

theorem isTime_elim {toks : List Token} {k : Nat} {d : Int}
    {cols : List (List Char)}
    (h : isTimeIdentifierAt toks k d cols = true) :
    ∃ t, toks[k]? = some t ∧ t.depth = d ∧ t.kind = .tkIdent := by
  rw [isTimeIdentifierAt] at h
  cases htm : toks[k]? with
  | none => rw [htm] at h; cases h
  | some t =>
    rw [htm] at h
    dsimp only at h
    by_cases hc : t.depth = d ∧ t.kind = TokenKind.tkIdent
    · exact ⟨t, rfl, hc⟩
    · rw [if_neg hc] at h
      cases h

theorem isTime_depth {toks : List Token} {k : Nat} {d : Int}
    {cols : List (List Char)}
    (h : isTimeIdentifierAt toks k d cols = true) :
    tokP toks k (fun t => t.depth = d) = true := by
  rcases isTime_elim h with ⟨t, htm, hd, -⟩
  exact (tokP_eq_true_iff _ _ _).mpr ⟨t, htm, by simp [hd]⟩

theorem isTime_not_kwNot {toks : List Token} {k : Nat} {d : Int}
    {cols : List (List Char)}
    (h : isTimeIdentifierAt toks k d cols = true) :
    tokP toks k
      (fun t => t.kind = .tkKeyword ∧ t.val = "not".data) = false := by
  rcases isTime_elim h with ⟨t, htm, -, hk⟩
  refine (tokP_eq_false_iff _ _ _).mpr fun t' htm' => ?_
  rw [htm] at htm'
  injection htm' with he
  subst he
  simp only [decide_eq_false_iff_not]
  rintro ⟨hkw, -⟩
  rw [hk] at hkw
  cases hkw

theorem lookback_iff (toks : List Token) (start : Nat) (d : Int)
    (cols : List (List Char)) (i : Nat) :
    ∀ k0, (lookback toks start d cols i k0 = true ↔
      ∃ k, k ≤ k0 ∧ start ≤ k ∧ i ≤ k + 6 ∧
        isTimeIdentifierAt toks k d cols = true) := by
  intro k0
  induction k0 with
  | zero =>
    rw [lookback]
    by_cases hw : start ≤ 0 ∧ i ≤ 0 + 6
    · rw [if_pos hw]
      by_cases hT : isTimeIdentifierAt toks 0 d cols = true
      · have h1 := isTime_depth hT
        have h2 := isTime_not_kwNot hT
        rw [h1, h2]
        simp only [Bool.not_true, Bool.or_false, Bool.false_eq_true,
          if_false, if_pos hT]
        simp only [true_iff]
        exact ⟨0, le_rfl, hw.1, hw.2, hT⟩
      · have hT' : isTimeIdentifierAt toks 0 d cols = false := by
          cases hv : isTimeIdentifierAt toks 0 d cols with
          | false => rfl
          | true => exact absurd hv hT
        constructor
        · intro h
          rw [if_neg hT, ite_self] at h
          cases h
        · rintro ⟨k, hk, -, -, hTk⟩
          interval_cases k
          rw [hT'] at hTk
          cases hTk
    · rw [if_neg hw]
      simp only [Bool.false_eq_true, false_iff]
      rintro ⟨k, hk, h1, h2, -⟩
      interval_cases k
      exact hw ⟨h1, h2⟩
  | succ k ih =>
    rw [lookback]
    by_cases hw : start ≤ k + 1 ∧ i ≤ (k + 1) + 6
    · rw [if_pos hw]
      by_cases hT : isTimeIdentifierAt toks (k+1) d cols = true
      · have h1 := isTime_depth hT
        have h2 := isTime_not_kwNot hT
        rw [h1, h2]
        simp only [Bool.not_true, Bool.or_false, Bool.false_eq_true,
          if_false, if_pos hT]
        simp only [true_iff]
        exact ⟨k + 1, le_rfl, hw.1, hw.2, hT⟩
      · have hT' : isTimeIdentifierAt toks (k+1) d cols = false := by
          cases hv : isTimeIdentifierAt toks (k+1) d cols with
          | false => rfl
          | true => exact absurd hv hT
        have hbody : (if !(tokP toks (k+1) (fun t => t.depth = d)) ||
            tokP toks (k+1)
              (fun t => t.kind = .tkKeyword ∧ t.val = "not".data) then
              lookback toks start d cols i k
            else if isTimeIdentifierAt toks (k+1) d cols then true
            else lookback toks start d cols i k) =
            lookback toks start d cols i k := by
          split <;> simp_all
        rw [hbody, ih]
        constructor
        · rintro ⟨k', hk', h1, h2, hT2⟩
          exact ⟨k', by omega, h1, h2, hT2⟩
        · rintro ⟨k', hk', h1, h2, hT2⟩
          refine ⟨k', ?_, h1, h2, hT2⟩
          rcases Nat.eq_or_lt_of_le hk' with he | hlt
          · subst he; rw [hT'] at hT2; cases hT2
          · omega
    · rw [if_neg hw]
      simp only [Bool.false_eq_true, false_iff]
      rintro ⟨k', hk', h1, h2, -⟩
      exact hw ⟨by omega, by omega⟩

theorem condTimeThenOp_iff (toks : List Token) (stop : Nat) (d : Int)
    (cols : List (List Char)) (i : Nat) :
    condTimeThenOp toks stop d cols i = true ↔
      (isTimeIdentifierAt toks i d cols = true ∧
       ∃ j, NextAtDepth toks stop d i j ∧
         (tokP toks j
            (fun t => t.kind = .tkKeyword ∧ t.val = "between".data) = true ∨
          (tokP toks j
             (fun t => t.kind = .tkKeyword ∧ t.val = "not".data) = true ∧
           ∃ k, NextAtDepth toks stop d j k ∧
             tokP toks k
               (fun t => t.kind = .tkKeyword ∧ t.val = "between".data) =
               true) ∨
          tokP toks j
            (fun t => t.kind = .tkSymbol ∧ isCompareOp t.val = true) =
            true)) := by
  rw [condTimeThenOp]
  cases hscan2 : scanIdx stop (fun _ => false)
      (fun j => tokP toks j (fun t => t.depth = d)) (i + 1) with
  | none =>
    simp only [Bool.and_eq_true]
    constructor
    · rintro ⟨-, h⟩
      exact Bool.noConfusion h
    · rintro ⟨hT, j, hnext, -⟩
      have := (nextAtDepth_scan_iff toks stop d i j).mpr hnext
      rw [hscan2] at this
      cases this
  | some j =>
    have hnextj : NextAtDepth toks stop d i j :=
      (nextAtDepth_scan_iff toks stop d i j).mp hscan2
    simp only [Bool.and_eq_true, Bool.or_eq_true]
    constructor
    · rintro ⟨hT, hops⟩
      refine ⟨hT, j, hnextj, ?_⟩
      rcases hops with (hnot | hbet) | hcmp
      · obtain ⟨hnotkw, hm⟩ := hnot
        cases hscan3 : scanIdx stop (fun _ => false)
            (fun k => tokP toks k (fun t => t.depth = d)) (j + 1) with
        | none =>
          rw [hscan3] at hm
          exact Bool.noConfusion hm
        | some k =>
          rw [hscan3] at hm
          exact Or.inr (Or.inl ⟨hnotkw, k,
            (nextAtDepth_scan_iff toks stop d j k).mp hscan3, hm⟩)
      · exact Or.inl hbet
      · exact Or.inr (Or.inr hcmp)
    · rintro ⟨hT, j', hnext', hdisj⟩
      have hscan2' := (nextAtDepth_scan_iff toks stop d i j').mpr hnext'
      rw [hscan2] at hscan2'
      injection hscan2' with he
      subst he
      refine ⟨hT, ?_⟩
      rcases hdisj with hbet | ⟨hnotkw, k, hnextk, hbetk⟩ | hcmp
      · exact Or.inl (Or.inr hbet)
      · refine Or.inl (Or.inl ⟨hnotkw, ?_⟩)
        rw [(nextAtDepth_scan_iff toks stop d j k).mpr hnextk]
        exact hbetk
      · exact Or.inr hcmp

theorem condBetweenLookback_iff (toks : List Token) (start : Nat) (d : Int)
    (cols : List (List Char)) (i : Nat) :
    condBetweenLookback toks start d cols i = true ↔
      (tokP toks i
        (fun t => t.kind = .tkKeyword ∧ t.val = "between".data) = true ∧
       ∃ k, start ≤ k ∧ k < i ∧ i ≤ k + 6 ∧
         isTimeIdentifierAt toks k d cols = true) := by
  rw [condBetweenLookback, Bool.and_eq_true]
  refine and_congr_right fun _ => ?_
  cases i with
  | zero =>
    rw [if_pos rfl]
    simp only [Bool.false_eq_true, false_iff]
    rintro ⟨k, -, hk, -, -⟩
    omega
  | succ n =>
    rw [if_neg (Nat.succ_ne_zero n), lookback_iff]
    constructor
    · rintro ⟨k, hk, h1, h2, hT⟩
      exact ⟨k, h1, by omega, h2, hT⟩
    · rintro ⟨k, h1, hk, h2, hT⟩
      exact ⟨k, by omega, h1, h2, hT⟩

theorem macroScan_iff (toks : List Token) (start stop : Nat) (d : Int)
    (hs : stop ≤ toks.length) :
    (scanIdx (min stop toks.length) (fun _ => false)
      (fun i => tokP toks i (fun t => t.depth = d ∧ t.kind = .tkIdent ∧
        containsSeq "$__timefilter".data t.val = true)) start).isSome =
      true ↔
    TimeFilterMacroSpec toks start stop d := by
  rw [scanIdx_isSome_iff, TimeFilterMacroSpec, Nat.min_eq_left hs]

theorem timeScan_iff (toks : List Token) (start stop : Nat) (d : Int)
    (cols : List (List Char)) (hs : stop ≤ toks.length) :
    (scanIdx (min stop toks.length) (fun _ => false)
      (fun i => tokP toks i (fun t => t.depth = d) &&
        (condTimeThenOp toks stop d cols i ||
         condBetweenLookback toks start d cols i)) start).isSome = true ↔
    (TimeIdentThenOpSpec toks start stop d cols ∨
     BetweenLookbackSpec toks start stop d cols) := by
  rw [scanIdx_isSome_iff, Nat.min_eq_left hs]
  constructor
  · rintro ⟨j, h1, h2, h3⟩
    rw [Bool.and_eq_true, Bool.or_eq_true] at h3
    obtain ⟨hdep, hAB⟩ := h3
    rcases hAB with hA | hB
    · rcases (condTimeThenOp_iff toks stop d cols j).mp hA with
        ⟨hT, jj, hnext, hdisj⟩
      exact Or.inl ⟨j, h1, h2, hT, jj, hnext, hdisj⟩
    · rcases (condBetweenLookback_iff toks start d cols j).mp hB with
        ⟨hbet, k, hk1, hk2, hk3, hkT⟩
      refine Or.inr ⟨j, k, h1, h2, ?_, hk1, hk2, hk3, hkT⟩
      rcases (tokP_eq_true_iff _ _ _).mp hdep with ⟨t, htm, hp1⟩
      rcases (tokP_eq_true_iff _ _ _).mp hbet with ⟨t', htm', hp2⟩
      rw [htm] at htm'
      injection htm' with he
      subst he
      refine (tokP_eq_true_iff _ _ _).mpr ⟨t, htm, ?_⟩
      simp only [decide_eq_true_eq] at hp1 hp2 ⊢
      exact ⟨hp1, hp2.1, hp2.2⟩
  · rintro (⟨i, h1, h2, hT, jj, hnext, hdisj⟩ |
      ⟨i, k, h1, h2, hbet, hk1, hk2, hk3, hkT⟩)
    · refine ⟨i, h1, h2, ?_⟩
      rw [Bool.and_eq_true, Bool.or_eq_true]
      refine ⟨isTime_depth hT, Or.inl ?_⟩
      exact (condTimeThenOp_iff toks stop d cols i).mpr
        ⟨hT, jj, hnext, hdisj⟩
    · refine ⟨i, h1, h2, ?_⟩
      rw [Bool.and_eq_true, Bool.or_eq_true]
      rcases (tokP_eq_true_iff _ _ _).mp hbet with ⟨t, htm, hp⟩
      simp only [decide_eq_true_eq] at hp
      refine ⟨(tokP_eq_true_iff _ _ _).mpr ⟨t, htm, by simp [hp.1]⟩,
        Or.inr ?_⟩
      exact (condBetweenLookback_iff toks start d cols i).mpr
        ⟨(tokP_eq_true_iff _ _ _).mpr
          ⟨t, htm, by simp [hp.2.1, hp.2.2]⟩,
         k, hk1, hk2, hk3, hkT⟩

theorem whereHasTimePredicate_iff (toks : List Token) (start stop : Nat)
    (d : Int) (cols : List (List Char)) (hs : stop ≤ toks.length) :
    whereHasTimePredicate toks start stop d cols = true ↔
      TimePredicateSpec toks start stop d cols := by
  rw [whereHasTimePredicate, Bool.or_eq_true, TimePredicateSpec,
    macroScan_iff toks start stop d hs,
    timeScan_iff toks start stop d cols hs]

/-- Claim C1: the WHERE body `[start, stop)` at depth `d` is accepted by
`whereHasTimePredicate` iff (a) some Identifier token at depth `d` in the
span contains the substring `$__timefilter`, or (b) some recognized time
identifier at depth `d` is immediately followed, at depth `d` (skipping
tokens at other depths), by BETWEEN, by NOT then BETWEEN, or by a comparison
symbol among `=`, `<`, `>`, `<=`, `>=`, `<>`, `!=`, or (c) some BETWEEN
keyword at depth `d` has a recognized time identifier among at most the 6
token positions preceding it at the same depth; and when none holds for a
base-table SELECT whose WHERE is well-formed, exactly one issue with reason
"WHERE clause lacks a time predicate on allowed time columns" is raised for
that SELECT. -/
theorem c1_time_predicate_detection :
    (∀ (toks : List Token) (start stop : Nat) (d : Int)
        (cols : List (List Char)), stop ≤ toks.length →
      (whereHasTimePredicate toks start stop d cols = true ↔
        TimePredicateSpec toks start stop d cols)) ∧
    (∀ (toks : List Token) (cols : List (List Char)) (selIdx : Nat)
        (d : Int) (fromIdx whereIdx : Nat),
      findNextKeywordAtDepth toks (selIdx + 1) d "from".data =
        some fromIdx →
      fromStartsWithBaseTable toks (fromIdx + 1)
        (findNextTerminatorAtDepth toks (fromIdx + 1) d) d = true →
      findNextKeywordBetweenAtDepth toks (fromIdx + 1)
        (findNextTerminatorAtDepth toks (fromIdx + 1) d) d "where".data =
        some whereIdx →
      whereStartsWithConjunction toks (whereIdx + 1)
        (findNextTerminatorAtDepth toks (whereIdx + 1) d) d = false →
      whereHasTimePredicate toks (whereIdx + 1)
        (findNextTerminatorAtDepth toks (whereIdx + 1) d) d cols = false →
      evalSelect toks cols selIdx d =
        some ⟨snippetAroundTokens toks selIdx
            (findNextTerminatorAtDepth toks (whereIdx + 1) d),
          reasonNoTimePredicate, d⟩) := by
  refine ⟨fun toks start stop d cols hs =>
    whereHasTimePredicate_iff toks start stop d cols hs, ?_⟩
  intro toks cols selIdx d fromIdx whereIdx h1 h2 h3 h4 h5
  simp [evalSelect, h1, h2, h3, h4, h5]

/-- Witness for **C1** at `SELECT * FROM mydb.s1 WHERE measure_name = 'x'`:
the detection equivalence instantiated on the WHERE body, and the raised
missing-time-predicate issue. -/
theorem c1_time_predicate_detection_witness :
    (whereHasTimePredicate
        (lex "SELECT * FROM mydb.s1 WHERE measure_name = 'x'".data) 5
        (findNextTerminatorAtDepth
          (lex "SELECT * FROM mydb.s1 WHERE measure_name = 'x'".data) 5 0)
        0 defaultTimeCols = true ↔
      TimePredicateSpec
        (lex "SELECT * FROM mydb.s1 WHERE measure_name = 'x'".data) 5
        (findNextTerminatorAtDepth
          (lex "SELECT * FROM mydb.s1 WHERE measure_name = 'x'".data) 5 0)
        0 defaultTimeCols) ∧
    evalSelect (lex "SELECT * FROM mydb.s1 WHERE measure_name = 'x'".data)
        defaultTimeCols 0 0 =
      some ⟨snippetAroundTokens
          (lex "SELECT * FROM mydb.s1 WHERE measure_name = 'x'".data) 0
          (findNextTerminatorAtDepth
            (lex "SELECT * FROM mydb.s1 WHERE measure_name = 'x'".data)
            5 0),
        reasonNoTimePredicate, 0⟩ :=
  ⟨c1_time_predicate_detection.1
      (lex "SELECT * FROM mydb.s1 WHERE measure_name = 'x'".data) 5
      (findNextTerminatorAtDepth
        (lex "SELECT * FROM mydb.s1 WHERE measure_name = 'x'".data) 5 0)
      0 defaultTimeCols (by decide),
   c1_time_predicate_detection.2
      (lex "SELECT * FROM mydb.s1 WHERE measure_name = 'x'".data)
      defaultTimeCols 0 0 2 4 (by decide) (by decide) (by decide)
      (by decide) (by decide)⟩

end Tsv
